import Mathlib

/-!
Verification of the TopoJSON-to-GeoJSON conversion script (src/data/convert.js).

The script reads a JSON topology document from a fixed path, and for each entry
of its object mapping computes the GeoJSON feature decoding (library call
topojson.feature, embedded below from topojson-client: feature.js, transform.js)
and writes the 2-space pretty-printed serialization (JSON.stringify(g, null, 2))
to a per-key output path.

The embedding models:
  - JSON values (numbers restricted to integers, on which JavaScript float
    arithmetic is exact) with a renderer mirroring JSON.stringify with 2-space
    indent, and a parser with a proved render/parse round trip;
  - the topology data model and the feature/object/transform decode;
  - the sequential per-key run loop as explicit state passing, with an oracle
    for per-key I/O failure, and the whole program as a function of the file
    system contents.
-/

/-- A JSON value. Numbers are integers: the documents the script manipulates
hold integer coordinates, on which JavaScript number arithmetic is exact. -/
inductive Json where
  | null
  | bool (b : Bool)
  | num (n : Int)
  | str (s : String)
  | arr (items : List Json)
  | obj (entries : List (String × Json))

/-- Decimal digit character for d < 10. -/
def digitChar (d : Nat) : Char := Char.ofNat (48 + d)

/-- Lowercase hexadecimal digit character for d < 16 (as produced by
JSON.stringify's control-character escapes). -/
def hexChar (d : Nat) : Char := Char.ofNat (if d < 10 then 48 + d else 87 + d)

/-- Decimal digits of n, least significant first. -/
def natDigsRev (n : Nat) : List Char :=
  if n < 10 then [digitChar n] else digitChar (n % 10) :: natDigsRev (n / 10)
termination_by n
decreasing_by exact Nat.div_lt_self (by omega) (by omega)

/-- Decimal digits of n, most significant first. -/
def natChars (n : Nat) : List Char := (natDigsRev n).reverse

/-- The characters of an integer in JavaScript's decimal notation. -/
def intChars : Int → List Char
  | .ofNat m => natChars m
  | .negSucc m => '-' :: natChars (m + 1)

/-- JSON escape of a single character, as JSON.stringify produces it: the two
character escapes for quote, backslash and the named control characters, and
a lowercase hexadecimal escape for the remaining control characters. -/
def escapeChar (c : Char) : List Char :=
  if c = '"' then ['\\', '"']
  else if c = '\\' then ['\\', '\\']
  else if c = '\x08' then ['\\', 'b']
  else if c = '\t' then ['\\', 't']
  else if c = '\n' then ['\\', 'n']
  else if c = '\x0c' then ['\\', 'f']
  else if c = '\r' then ['\\', 'r']
  else if c.toNat < 32 then ['\\', 'u', '0', '0', hexChar (c.toNat / 16), hexChar (c.toNat % 16)]
  else [c]

/-- JSON escape of a character sequence. -/
def escChars : List Char → List Char
  | [] => []
  | c :: t => escapeChar c ++ escChars t

/-- A JSON string literal: quoted and escaped. -/
def strChars (s : String) : List Char := '"' :: (escChars s.data ++ ['"'])

/-- Two spaces of indentation per nesting level: the gap JSON.stringify builds
from the indent argument 2. -/
def padC (ind : Nat) : List Char := List.replicate (2 * ind) ' '

mutual

/-- Characters of the 2-space pretty-printed serialization of a JSON value at
nesting level ind, exactly as JSON.stringify(v, null, 2) lays it out: empty
arrays and objects are compact, nonempty ones put each element on its own
indented line. -/
def renderJ : Json → Nat → List Char
  | .null, _ => ['n', 'u', 'l', 'l']
  | .bool true, _ => ['t', 'r', 'u', 'e']
  | .bool false, _ => ['f', 'a', 'l', 's', 'e']
  | .num n, _ => intChars n
  | .str s, _ => strChars s
  | .arr [], _ => ['[', ']']
  | .arr (v :: t), ind =>
      '[' :: '\n' :: (padC (ind + 1) ++ renderArrItems (v :: t) (ind + 1)
        ++ '\n' :: (padC ind ++ [']']))
  | .obj [], _ => ['{', '}']
  | .obj (e :: t), ind =>
      '{' :: '\n' :: (padC (ind + 1) ++ renderObjItems (e :: t) (ind + 1)
        ++ '\n' :: (padC ind ++ ['}']))

/-- Array elements, separated by a comma, newline and indentation. -/
def renderArrItems : List Json → Nat → List Char
  | [], _ => []
  | [v], ind => renderJ v ind
  | v :: w :: t, ind =>
      renderJ v ind ++ ',' :: '\n' :: (padC ind ++ renderArrItems (w :: t) ind)

/-- Object members (quoted key, colon, space, value), separated by a comma,
newline and indentation. -/
def renderObjItems : List (String × Json) → Nat → List Char
  | [], _ => []
  | [e], ind => strChars e.1 ++ ':' :: ' ' :: renderJ e.2 ind
  | e :: f :: t, ind =>
      strChars e.1 ++ ':' :: ' ' :: renderJ e.2 ind
        ++ ',' :: '\n' :: (padC ind ++ renderObjItems (f :: t) ind)

end

/-- The string JSON.stringify(v, null, 2) produces. -/
def stringify2 (v : Json) : String := String.mk (renderJ v 0)

/-- JSON insignificant whitespace. -/
def wsChar (c : Char) : Bool := c = ' ' || c = '\n' || c = '\t' || c = '\r'

/-- Drop leading JSON whitespace. -/
def skipWs : List Char → List Char
  | [] => []
  | c :: t => if wsChar c then skipWs t else c :: t

/-- Decimal digit test. -/
def isDig (c : Char) : Bool := '0' ≤ c && c ≤ '9'

/-- Value of a decimal digit character. -/
def digVal (c : Char) : Option Nat := if isDig c then some (c.toNat - 48) else none

/-- Value of a hexadecimal digit character. -/
def hexVal (c : Char) : Option Nat :=
  if isDig c then some (c.toNat - 48)
  else if 'a' ≤ c && c ≤ 'f' then some (c.toNat - 87)
  else if 'A' ≤ c && c ≤ 'F' then some (c.toNat - 55)
  else none

/-- Value of a four-digit hexadecimal escape. -/
def hex4 (a b c d : Char) : Option Nat := do
  let va ← hexVal a
  let vb ← hexVal b
  let vc ← hexVal c
  let vd ← hexVal d
  some (((va * 16 + vb) * 16 + vc) * 16 + vd)

/-- Inverse of the named two-character escapes. -/
def unescChar (e : Char) : Option Char :=
  if e = '"' then some '"'
  else if e = '\\' then some '\\'
  else if e = '/' then some '/'
  else if e = 'b' then some '\x08'
  else if e = 't' then some '\t'
  else if e = 'n' then some '\n'
  else if e = 'f' then some '\x0c'
  else if e = 'r' then some '\r'
  else none

/-- Parse the body of a JSON string literal (after the opening quote), up to
and including the closing quote; yields the unescaped characters and the rest
of the input. -/
def parseStrBody : List Char → Option (List Char × List Char)
  | [] => none
  | c :: rest =>
    if c = '"' then some ([], rest)
    else if c = '\\' then
      match rest with
      | [] => none
      | e :: rest2 =>
        if e = 'u' then
          match rest2 with
          | a :: b :: c2 :: d :: rest3 =>
            match hex4 a b c2 d with
            | some n =>
              match parseStrBody rest3 with
              | some (l, r) => some (Char.ofNat n :: l, r)
              | none => none
            | none => none
          | _ => none
        else
          match unescChar e with
          | some u =>
            match parseStrBody rest2 with
            | some (l, r) => some (u :: l, r)
            | none => none
          | none => none
    else
      match parseStrBody rest with
      | some (l, r) => some (c :: l, r)
      | none => none

/-- Accumulate a run of decimal digits into a number, stopping at the first
non-digit. -/
def parseNatAux (acc : Nat) : List Char → Nat × List Char
  | [] => (acc, [])
  | c :: rest =>
    match digVal c with
    | some d => parseNatAux (acc * 10 + d) rest
    | none => (acc, c :: rest)

/-- Parse an integer JSON numeral: an optional minus sign and a digit run. -/
def parseNum : List Char → Option (Json × List Char)
  | [] => none
  | c :: rest =>
    if c = '-' then
      match rest with
      | [] => none
      | d :: _ =>
        if isDig d then
          let (m, r) := parseNatAux 0 rest
          some (.num (-(m : Int)), r)
        else none
    else if isDig c then
      let (m, r) := parseNatAux 0 (c :: rest)
      some (.num (m : Int), r)
    else none

mutual

/-- Parse one JSON value from the head of the input (no leading whitespace).
Structurally recursive on fuel; enough fuel is one more than the input length. -/
def parseJ : Nat → List Char → Option (Json × List Char)
  | 0, _ => none
  | _ + 1, [] => none
  | fuel + 1, c :: cs =>
    if c = 'n' then
      match cs with
      | 'u' :: 'l' :: 'l' :: rest => some (.null, rest)
      | _ => none
    else if c = 't' then
      match cs with
      | 'r' :: 'u' :: 'e' :: rest => some (.bool true, rest)
      | _ => none
    else if c = 'f' then
      match cs with
      | 'a' :: 'l' :: 's' :: 'e' :: rest => some (.bool false, rest)
      | _ => none
    else if c = '"' then
      match parseStrBody cs with
      | some (l, rest) => some (.str (String.mk l), rest)
      | none => none
    else if c = '[' then
      let cs2 := skipWs cs
      if cs2.headD 'z' = ']' then some (.arr [], cs2.tail)
      else
        match parseArrItems fuel cs2 with
        | some (l, rest) => some (.arr l, rest)
        | none => none
    else if c = '{' then
      let cs2 := skipWs cs
      if cs2.headD 'z' = '}' then some (.obj [], cs2.tail)
      else
        match parseObjItems fuel cs2 with
        | some (l, rest) => some (.obj l, rest)
        | none => none
    else parseNum (c :: cs)

/-- Parse one or more comma-separated array elements and the closing bracket. -/
def parseArrItems : Nat → List Char → Option (List Json × List Char)
  | 0, _ => none
  | fuel + 1, cs =>
    match parseJ fuel cs with
    | none => none
    | some (v, r1) =>
      let r2 := skipWs r1
      if r2.headD 'z' = ',' then
        match parseArrItems fuel (skipWs r2.tail) with
        | some (l, r) => some (v :: l, r)
        | none => none
      else if r2.headD 'z' = ']' then some ([v], r2.tail)
      else none

/-- Parse one or more comma-separated object members and the closing brace. -/
def parseObjItems : Nat → List Char → Option (List (String × Json) × List Char)
  | 0, _ => none
  | fuel + 1, cs =>
    match cs with
    | '"' :: cs1 =>
      (match parseStrBody cs1 with
      | none => none
      | some (k, r1) =>
        let r2 := skipWs r1
        if r2.headD 'z' = ':' then
          match parseJ fuel (skipWs r2.tail) with
          | none => none
          | some (v, r3) =>
            let r4 := skipWs r3
            if r4.headD 'z' = ',' then
              match parseObjItems fuel (skipWs r4.tail) with
              | some (l, r) => some ((String.mk k, v) :: l, r)
              | none => none
            else if r4.headD 'z' = '}' then some ([(String.mk k, v)], r4.tail)
            else none
        else none)
    | _ => none

end

/-- JSON.parse on the sublanguage of integer numerals: parse one value,
allowing surrounding whitespace and nothing else. -/
def jsonParse (s : String) : Option Json :=
  match parseJ (s.data.length + 1) (skipWs s.data) with
  | some (v, rest) => if skipWs rest = [] then some v else none
  | none => none

/-! ### Digits and numerals: the renderer's decimal digits parse back -/

/-- Heads that cannot extend a digit run: the empty input or a non-digit. -/
def noDigStart : List Char → Bool
  | [] => true
  | c :: _ => !isDig c

theorem digVal_digitChar (d : Nat) (h : d < 10) : digVal (digitChar d) = some d := by
  interval_cases d <;> decide

theorem isDig_digitChar (d : Nat) (h : d < 10) : isDig (digitChar d) = true := by
  interval_cases d <;> decide

theorem natDigsRev_lt (n : Nat) (h : n < 10) : natDigsRev n = [digitChar n] := by
  rw [natDigsRev]; simp [h]

theorem natDigsRev_ge (n : Nat) (h : ¬n < 10) :
    natDigsRev n = digitChar (n % 10) :: natDigsRev (n / 10) := by
  rw [natDigsRev]; simp [h]

theorem natDigsRev_digits (n : Nat) : ∀ c ∈ natDigsRev n, isDig c = true := by
  induction n using Nat.strong_induction_on with
  | _ n ih =>
    by_cases h : n < 10
    · rw [natDigsRev_lt n h]
      intro c hc
      rw [List.mem_singleton] at hc
      exact hc ▸ isDig_digitChar n h
    · rw [natDigsRev_ge n h]
      intro c hc
      rcases List.mem_cons.mp hc with h1 | h2
      · exact h1 ▸ isDig_digitChar _ (Nat.mod_lt _ (by omega))
      · exact ih (n / 10) (Nat.div_lt_self (by omega) (by omega)) c h2

theorem natDigsRev_ne_nil (n : Nat) : natDigsRev n ≠ [] := by
  by_cases h : n < 10
  · rw [natDigsRev_lt n h]; simp
  · rw [natDigsRev_ge n h]; simp

theorem natChars_ne_nil (n : Nat) : natChars n ≠ [] := by
  simpa [natChars] using natDigsRev_ne_nil n

theorem natChars_digits (n : Nat) : ∀ c ∈ natChars n, isDig c = true := by
  intro c hc
  exact natDigsRev_digits n c (List.mem_reverse.mp hc)

theorem natChars_head (n : Nat) : ∃ c t, natChars n = c :: t ∧ isDig c = true := by
  match h : natChars n with
  | [] => exact absurd h (natChars_ne_nil n)
  | c :: t => exact ⟨c, t, rfl, natChars_digits n c (h ▸ List.mem_cons_self c t)⟩

theorem parseNatAux_digits (ds : List Char) (hds : ∀ c ∈ ds, isDig c = true) :
    ∀ acc (rest : List Char), noDigStart rest = true →
      parseNatAux acc (ds ++ rest)
        = (ds.foldl (fun a c => a * 10 + (c.toNat - 48)) acc, rest) := by
  induction ds with
  | nil =>
    intro acc rest hrest
    cases rest with
    | nil => rfl
    | cons c t =>
      simp only [noDigStart, Bool.not_eq_true'] at hrest
      simp [parseNatAux, digVal, hrest]
  | cons c t ih =>
    intro acc rest hrest
    have hc : isDig c = true := hds c (List.mem_cons_self c t)
    simp only [List.cons_append, parseNatAux, digVal, hc, if_pos, List.append_eq]
    rw [ih (fun x hx => hds x (List.mem_cons_of_mem c hx)) _ _ hrest]
    simp

theorem natChars_foldl (n : Nat) : ∀ acc : Nat,
    (natChars n).foldl (fun a c => a * 10 + (c.toNat - 48)) acc
      = acc * 10 ^ (natChars n).length + n := by
  induction n using Nat.strong_induction_on with
  | _ n ih =>
    intro acc
    by_cases h : n < 10
    · have he : natChars n = [digitChar n] := by simp [natChars, natDigsRev_lt n h]
      have hv : (digitChar n).toNat - 48 = n := by interval_cases n <;> decide
      simp [he, hv, Nat.mul_comm]
    · have he : natChars n = natChars (n / 10) ++ [digitChar (n % 10)] := by
        simp [natChars, natDigsRev_ge n h]
      have hv : (digitChar (n % 10)).toNat - 48 = n % 10 := by
        have : n % 10 < 10 := Nat.mod_lt _ (by omega)
        interval_cases hm : n % 10 <;> decide
      rw [he, List.foldl_append]
      rw [ih (n / 10) (Nat.div_lt_self (by omega) (by omega)) acc]
      simp only [List.foldl_cons, List.foldl_nil, List.length_append, List.length_singleton, hv]
      rw [pow_succ]
      have := Nat.div_add_mod n 10
      ring_nf
      omega

theorem parseNatAux_natChars (n : Nat) (rest : List Char) (hrest : noDigStart rest = true) :
    parseNatAux 0 (natChars n ++ rest) = (n, rest) := by
  rw [parseNatAux_digits (natChars n) (natChars_digits n) 0 rest hrest, natChars_foldl]
  simp


theorem isDig_false_head (c : Char) (t : List Char) (h : isDig c = false) :
    noDigStart (c :: t) = true := by
  simp [noDigStart, h]

theorem dig_ne (c : Char) (h : isDig c = true) :
    wsChar c = false ∧ c ≠ '-' ∧ c ≠ 'n' ∧ c ≠ 't' ∧ c ≠ 'f' ∧ c ≠ '"' ∧ c ≠ '['
      ∧ c ≠ '{' ∧ c ≠ ']' ∧ c ≠ '}' := by
  have hne : ∀ x : Char, isDig x = false → c ≠ x := by
    intro x hx he
    subst he
    rw [h] at hx
    cases hx
  have hw : wsChar c = false := by
    cases hw2 : wsChar c
    · rfl
    · exfalso
      simp only [wsChar, Bool.or_eq_true, decide_eq_true_eq] at hw2
      rcases hw2 with ((h1 | h1) | h1) | h1 <;> (subst h1; exact absurd h (by decide))
  exact ⟨hw, hne '-' (by decide), hne 'n' (by decide), hne 't' (by decide),
    hne 'f' (by decide), hne '"' (by decide), hne '[' (by decide), hne '{' (by decide),
    hne ']' (by decide), hne '}' (by decide)⟩

theorem parseNum_intChars (n : Int) (rest : List Char) (hrest : noDigStart rest = true) :
    parseNum (intChars n ++ rest) = some (.num n, rest) := by
  cases n with
  | ofNat m =>
    obtain ⟨c, t, hct, hc⟩ := natChars_head m
    have hne := dig_ne c hc
    have harg : intChars (Int.ofNat m) ++ rest = c :: (t ++ rest) := by
      simp [intChars, hct]
    rw [harg, parseNum.eq_def]
    have hval := parseNatAux_natChars m rest hrest
    rw [hct] at hval
    simp only [List.cons_append] at hval
    simp [hne.2.1, hc, hval]
  | negSucc m =>
    obtain ⟨c, t, hct, hc⟩ := natChars_head (m + 1)
    have harg : intChars (Int.negSucc m) ++ rest = '-' :: (c :: (t ++ rest)) := by
      simp [intChars, hct]
    rw [harg, parseNum.eq_def]
    have hval := parseNatAux_natChars (m + 1) rest hrest
    rw [hct] at hval
    simp only [List.cons_append] at hval
    simp only [reduceIte, hc, if_true, hval]
    have hneg : -((m : Int) + 1) = Int.negSucc m := (Int.negSucc_eq m).symm
    simp [hneg]

/-! ### Strings: escaping parses back -/

theorem hexVal_hexChar (d : Nat) (h : d < 16) : hexVal (hexChar d) = some d := by
  interval_cases d <;> decide

theorem parseStrBody_escape (c : Char) (tail : List Char) :
    parseStrBody (escapeChar c ++ tail)
      = (parseStrBody tail).map (fun p => (c :: p.1, p.2)) := by
  by_cases h1 : c = '"'
  · subst h1
    rw [show escapeChar '"' ++ tail = '\\' :: '"' :: tail from rfl, parseStrBody.eq_def]
    cases hp : parseStrBody tail <;> simp [hp, unescChar]
  by_cases h2 : c = '\\'
  · subst h2
    rw [show escapeChar '\\' ++ tail = '\\' :: '\\' :: tail from rfl, parseStrBody.eq_def]
    cases hp : parseStrBody tail <;> simp [hp, unescChar]
  by_cases h3 : c = '\x08'
  · subst h3
    rw [show escapeChar '\x08' ++ tail = '\\' :: 'b' :: tail from rfl, parseStrBody.eq_def]
    cases hp : parseStrBody tail <;> simp [hp, unescChar]
  by_cases h4 : c = '\t'
  · subst h4
    rw [show escapeChar '\t' ++ tail = '\\' :: 't' :: tail from rfl, parseStrBody.eq_def]
    cases hp : parseStrBody tail <;> simp [hp, unescChar]
  by_cases h5 : c = '\n'
  · subst h5
    rw [show escapeChar '\n' ++ tail = '\\' :: 'n' :: tail from rfl, parseStrBody.eq_def]
    cases hp : parseStrBody tail <;> simp [hp, unescChar]
  by_cases h6 : c = '\x0c'
  · subst h6
    rw [show escapeChar '\x0c' ++ tail = '\\' :: 'f' :: tail from rfl, parseStrBody.eq_def]
    cases hp : parseStrBody tail <;> simp [hp, unescChar]
  by_cases h7 : c = '\r'
  · subst h7
    rw [show escapeChar '\r' ++ tail = '\\' :: 'r' :: tail from rfl, parseStrBody.eq_def]
    cases hp : parseStrBody tail <;> simp [hp, unescChar]
  by_cases h8 : c.toNat < 32
  · have hdiv : c.toNat / 16 < 16 := by omega
    have hmod : c.toNat % 16 < 16 := Nat.mod_lt _ (by omega)
    have he : escapeChar c
        = ['\\', 'u', '0', '0', hexChar (c.toNat / 16), hexChar (c.toNat % 16)] := by
      simp [escapeChar, h1, h2, h3, h4, h5, h6, h7, h8]
    rw [he]
    simp only [List.cons_append, List.nil_append]
    rw [parseStrBody.eq_def]
    have h00 : hexVal '0' = some 0 := by decide
    have harith : c.toNat / 16 * 16 + c.toNat % 16 = c.toNat := by omega
    cases hp : parseStrBody tail <;>
      simp [hp, hex4, h00, hexVal_hexChar _ hdiv, hexVal_hexChar _ hmod, harith,
        Char.ofNat_toNat]
  · have he : escapeChar c = [c] := by
      simp [escapeChar, h1, h2, h3, h4, h5, h6, h7, h8]
    rw [he]
    simp only [List.cons_append, List.nil_append]
    rw [parseStrBody.eq_def]
    cases hp : parseStrBody tail <;> simp [hp, h1, h2]

theorem parseStrBody_escChars (l : List Char) : ∀ rest : List Char,
    parseStrBody (escChars l ++ '"' :: rest) = some (l, rest) := by
  induction l with
  | nil =>
    intro rest
    rw [show escChars [] ++ '"' :: rest = '"' :: rest from rfl, parseStrBody.eq_def]
    simp
  | cons c t ih =>
    intro rest
    rw [escChars, List.append_assoc, parseStrBody_escape, ih rest]
    rfl

/-! ### Whitespace -/

theorem skipWs_not_ws (c : Char) (t : List Char) (h : wsChar c = false) :
    skipWs (c :: t) = c :: t := by
  simp [skipWs, h]

theorem skipWs_replicate_space (n : Nat) : ∀ xs : List Char,
    skipWs (List.replicate n ' ' ++ xs) = skipWs xs := by
  induction n with
  | zero => intro xs; rfl
  | succ k ih => intro xs; simpa [List.replicate_succ, skipWs, wsChar] using ih xs

theorem skipWs_pad (k : Nat) (xs : List Char) : skipWs (padC k ++ xs) = skipWs xs :=
  skipWs_replicate_space (2 * k) xs

theorem skipWs_newline (xs : List Char) : skipWs ('\n' :: xs) = skipWs xs := by
  simp [skipWs, wsChar]

/-! ### Heads of rendered output -/

theorem intChars_head (n : Int) :
    ∃ c t, intChars n = c :: t ∧ (isDig c = true ∨ c = '-') := by
  cases n with
  | ofNat m =>
    obtain ⟨c, t, hct, hc⟩ := natChars_head m
    exact ⟨c, t, by simp [intChars, hct], Or.inl hc⟩
  | negSucc m =>
    exact ⟨'-', natChars (m + 1), by simp [intChars], Or.inr rfl⟩

theorem renderJ_head (v : Json) (ind : Nat) :
    ∃ c t, renderJ v ind = c :: t ∧ wsChar c = false ∧ c ≠ ']' ∧ c ≠ '}' := by
  cases v with
  | null => refine ⟨_, _, rfl, ?_, ?_, ?_⟩ <;> decide
  | bool b => cases b <;> (refine ⟨_, _, rfl, ?_, ?_, ?_⟩ <;> decide)
  | num n =>
    obtain ⟨c, t, hct, hc⟩ := intChars_head n
    refine ⟨c, t, by simp [renderJ, hct], ?_, ?_, ?_⟩
    · rcases hc with hd | hm
      · exact (dig_ne c hd).1
      · subst hm; decide
    · rcases hc with hd | hm
      · exact (dig_ne c hd).2.2.2.2.2.2.2.2.1
      · subst hm; decide
    · rcases hc with hd | hm
      · exact (dig_ne c hd).2.2.2.2.2.2.2.2.2
      · subst hm; decide
  | str s => refine ⟨_, _, rfl, ?_, ?_, ?_⟩ <;> decide
  | arr l => cases l <;> (refine ⟨_, _, rfl, ?_, ?_, ?_⟩ <;> decide)
  | obj l => cases l <;> (refine ⟨_, _, rfl, ?_, ?_, ?_⟩ <;> decide)

theorem renderJ_length_pos (v : Json) (ind : Nat) : 0 < (renderJ v ind).length := by
  obtain ⟨c, t, hct, -⟩ := renderJ_head v ind
  simp [hct]

theorem skipWs_renderJ (v : Json) (ind : Nat) (xs : List Char) :
    skipWs (renderJ v ind ++ xs) = renderJ v ind ++ xs := by
  obtain ⟨c, t, hct, hws, -, -⟩ := renderJ_head v ind
  rw [hct, List.cons_append, skipWs_not_ws _ _ hws]

theorem renderArrItems_cons (v : Json) (t : List Json) (ind : Nat) :
    ∃ X, renderArrItems (v :: t) ind = renderJ v ind ++ X := by
  cases t with
  | nil => exact ⟨[], by simp [renderArrItems]⟩
  | cons w t' => exact ⟨_, rfl⟩

theorem skipWs_renderArrItems (v : Json) (t : List Json) (ind : Nat) (xs : List Char) :
    skipWs (renderArrItems (v :: t) ind ++ xs) = renderArrItems (v :: t) ind ++ xs := by
  obtain ⟨X, hX⟩ := renderArrItems_cons v t ind
  rw [hX, List.append_assoc, skipWs_renderJ, ← List.append_assoc]

theorem headD_renderArrItems_ne (v : Json) (t : List Json) (ind : Nat) (xs : List Char) :
    ¬(renderArrItems (v :: t) ind ++ xs).headD 'z' = ']' := by
  obtain ⟨X, hX⟩ := renderArrItems_cons v t ind
  obtain ⟨c, t2, hct, -, hbr, -⟩ := renderJ_head v ind
  rw [hX, hct]
  simpa using hbr

theorem renderObjItems_cons (e : String × Json) (t : List (String × Json)) (ind : Nat) :
    ∃ Y, renderObjItems (e :: t) ind = '"' :: Y := by
  cases t with
  | nil => exact ⟨_, rfl⟩
  | cons f t' => exact ⟨_, rfl⟩

theorem skipWs_renderObjItems (e : String × Json) (t : List (String × Json)) (ind : Nat)
    (xs : List Char) :
    skipWs (renderObjItems (e :: t) ind ++ xs) = renderObjItems (e :: t) ind ++ xs := by
  obtain ⟨Y, hY⟩ := renderObjItems_cons e t ind
  rw [hY, List.cons_append, skipWs_not_ws _ _ (by decide)]

theorem headD_renderObjItems_ne (e : String × Json) (t : List (String × Json)) (ind : Nat)
    (xs : List Char) :
    ¬(renderObjItems (e :: t) ind ++ xs).headD 'z' = '}' := by
  obtain ⟨Y, hY⟩ := renderObjItems_cons e t ind
  rw [hY]
  simp

/-! ### Parser branch reductions -/

theorem parseJ_num_branch (f : Nat) (c : Char) (cs : List Char)
    (hn : ¬c = 'n') (ht : ¬c = 't') (hf : ¬c = 'f') (hq : ¬c = '"')
    (hbk : ¬c = '[') (hbc : ¬c = '{') :
    parseJ (f + 1) (c :: cs) = parseNum (c :: cs) := by
  rw [parseJ.eq_def]
  simp [hn, ht, hf, hq, hbk, hbc]

theorem parseJ_str_branch (f : Nat) (cs : List Char) :
    parseJ (f + 1) ('"' :: cs)
      = (match parseStrBody cs with
         | some (l, rest) => some (.str (String.mk l), rest)
         | none => none) := rfl

theorem parseJ_arr_branch (f : Nat) (cs : List Char) :
    parseJ (f + 1) ('[' :: cs)
      = (if (skipWs cs).headD 'z' = ']' then some (.arr [], (skipWs cs).tail)
         else match parseArrItems f (skipWs cs) with
           | some (l, rest) => some (.arr l, rest)
           | none => none) := rfl

theorem parseJ_obj_branch (f : Nat) (cs : List Char) :
    parseJ (f + 1) ('{' :: cs)
      = (if (skipWs cs).headD 'z' = '}' then some (.obj [], (skipWs cs).tail)
         else match parseObjItems f (skipWs cs) with
           | some (l, rest) => some (.obj l, rest)
           | none => none) := rfl

theorem parseArrItems_step (f : Nat) (cs : List Char) :
    parseArrItems (f + 1) cs
      = (match parseJ f cs with
        | none => none
        | some (v, r1) =>
          if (skipWs r1).headD 'z' = ',' then
            match parseArrItems f (skipWs (skipWs r1).tail) with
            | some (l, r) => some (v :: l, r)
            | none => none
          else if (skipWs r1).headD 'z' = ']' then some ([v], (skipWs r1).tail)
          else none) := rfl

theorem parseObjItems_step (f : Nat) (cs1 : List Char) :
    parseObjItems (f + 1) ('"' :: cs1)
      = (match parseStrBody cs1 with
        | none => none
        | some (k, r1) =>
          if (skipWs r1).headD 'z' = ':' then
            match parseJ f (skipWs (skipWs r1).tail) with
            | none => none
            | some (v, r3) =>
              if (skipWs r3).headD 'z' = ',' then
                match parseObjItems f (skipWs (skipWs r3).tail) with
                | some (l, r) => some ((String.mk k, v) :: l, r)
                | none => none
              else if (skipWs r3).headD 'z' = '}' then
                some ([(String.mk k, v)], (skipWs r3).tail)
              else none
          else none) := rfl

theorem skipWs_space (xs : List Char) : skipWs (' ' :: xs) = skipWs xs := by
  simp [skipWs, wsChar]

theorem skipWs_close (b : Char) (hb : wsChar b = false) (m : Nat) (rest : List Char) :
    skipWs ('\n' :: (padC m ++ b :: rest)) = b :: rest := by
  rw [skipWs_newline, skipWs_pad, skipWs_not_ws _ _ hb]

theorem len_padC (k : Nat) : (padC k).length = 2 * k := by simp [padC]

/-- The codec round trip, by induction on the parser's fuel: whenever the fuel
covers the input length, parsing a rendered value (or a rendered nonempty
element/member list up to its closing bracket) recovers it exactly. -/
theorem parse_render_all : ∀ fuel : Nat,
    (∀ (v : Json) (ind : Nat) (rest : List Char), noDigStart rest = true →
      (renderJ v ind ++ rest).length ≤ fuel →
      parseJ fuel (renderJ v ind ++ rest) = some (v, rest))
  ∧ (∀ (v : Json) (t : List Json) (ind m : Nat) (rest : List Char),
      (renderArrItems (v :: t) ind ++ '\n' :: (padC m ++ ']' :: rest)).length < fuel →
      parseArrItems fuel (renderArrItems (v :: t) ind ++ '\n' :: (padC m ++ ']' :: rest))
        = some (v :: t, rest))
  ∧ (∀ (e : String × Json) (t : List (String × Json)) (ind m : Nat) (rest : List Char),
      (renderObjItems (e :: t) ind ++ '\n' :: (padC m ++ '}' :: rest)).length < fuel →
      parseObjItems fuel (renderObjItems (e :: t) ind ++ '\n' :: (padC m ++ '}' :: rest))
        = some (e :: t, rest)) := by
  intro fuel
  induction fuel with
  | zero =>
    refine ⟨?_, ?_, ?_⟩
    · intro v ind rest _ hlen
      have hp := renderJ_length_pos v ind
      simp only [List.length_append] at hlen
      omega
    · intro v t ind m rest hlen
      exact absurd hlen (Nat.not_lt_zero _)
    · intro e t ind m rest hlen
      exact absurd hlen (Nat.not_lt_zero _)
  | succ f ih =>
    obtain ⟨ihA, ihB, ihC⟩ := ih
    refine ⟨?_, ?_, ?_⟩
    · -- values
      intro v ind rest hnd hlen
      cases v with
      | null => exact rfl
      | bool b => cases b with
        | true => exact rfl
        | false => exact rfl
      | num n =>
        have hrn : renderJ (.num n) ind = intChars n := by simp [renderJ]
        rw [hrn]
        obtain ⟨c, t, hct, hc⟩ := intChars_head n
        have h6 : ¬c = 'n' ∧ ¬c = 't' ∧ ¬c = 'f' ∧ ¬c = '"' ∧ ¬c = '[' ∧ ¬c = '{' := by
          rcases hc with hd | hm
          · have hq := dig_ne c hd
            exact ⟨hq.2.2.1, hq.2.2.2.1, hq.2.2.2.2.1, hq.2.2.2.2.2.1,
              hq.2.2.2.2.2.2.1, hq.2.2.2.2.2.2.2.1⟩
          · subst hm
            exact ⟨by decide, by decide, by decide, by decide, by decide, by decide⟩
        rw [hct, List.cons_append,
          parseJ_num_branch f c (t ++ rest) h6.1 h6.2.1 h6.2.2.1 h6.2.2.2.1 h6.2.2.2.2.1
            h6.2.2.2.2.2,
          ← List.cons_append, ← hct, parseNum_intChars n rest hnd]
      | str s =>
        have hr : renderJ (.str s) ind ++ rest = '"' :: (escChars s.data ++ ('"' :: rest)) := by
          simp [renderJ, strChars, List.append_assoc]
        rw [hr, parseJ_str_branch, parseStrBody_escChars]
      | arr l =>
        cases l with
        | nil =>
          have hr : renderJ (.arr []) ind ++ rest = '[' :: ']' :: rest := by simp [renderJ]
          rw [hr, parseJ_arr_branch, skipWs_not_ws _ _ (by decide)]
          simp
        | cons v0 t =>
          have hr : renderJ (.arr (v0 :: t)) ind ++ rest
              = '[' :: '\n' :: (padC (ind + 1)
                  ++ (renderArrItems (v0 :: t) (ind + 1)
                      ++ '\n' :: (padC ind ++ ']' :: rest))) := by
            simp [renderJ, List.append_assoc]
          rw [hr] at hlen ⊢
          rw [parseJ_arr_branch, skipWs_newline, skipWs_pad, skipWs_renderArrItems]
          rw [if_neg (headD_renderArrItems_ne v0 t (ind + 1) _)]
          rw [ihB v0 t (ind + 1) ind rest
            (by simp only [List.length_append, List.length_cons, len_padC] at hlen ⊢; omega)]
      | obj l =>
        cases l with
        | nil =>
          have hr : renderJ (.obj []) ind ++ rest = '{' :: '}' :: rest := by simp [renderJ]
          rw [hr, parseJ_obj_branch, skipWs_not_ws _ _ (by decide)]
          simp
        | cons e0 t =>
          have hr : renderJ (.obj (e0 :: t)) ind ++ rest
              = '{' :: '\n' :: (padC (ind + 1)
                  ++ (renderObjItems (e0 :: t) (ind + 1)
                      ++ '\n' :: (padC ind ++ '}' :: rest))) := by
            simp [renderJ, List.append_assoc]
          rw [hr] at hlen ⊢
          rw [parseJ_obj_branch, skipWs_newline, skipWs_pad, skipWs_renderObjItems]
          rw [if_neg (headD_renderObjItems_ne e0 t (ind + 1) _)]
          rw [ihC e0 t (ind + 1) ind rest
            (by simp only [List.length_append, List.length_cons, len_padC] at hlen ⊢; omega)]
    · -- array element lists
      intro v t ind m rest hlen
      cases t with
      | nil =>
        have hr : renderArrItems [v] ind = renderJ v ind := by simp [renderArrItems]
        rw [hr] at hlen ⊢
        rw [parseArrItems_step,
          ihA v ind ('\n' :: (padC m ++ ']' :: rest)) rfl (Nat.lt_succ_iff.mp hlen)]
        have hsw : skipWs ('\n' :: (padC m ++ ']' :: rest)) = ']' :: rest :=
          skipWs_close ']' (by decide) m rest
        simp [hsw]
      | cons w t' =>
        have hr : renderArrItems (v :: w :: t') ind ++ '\n' :: (padC m ++ ']' :: rest)
            = renderJ v ind ++ (',' :: '\n' :: (padC ind
                ++ (renderArrItems (w :: t') ind ++ '\n' :: (padC m ++ ']' :: rest)))) := by
          simp [renderArrItems, List.append_assoc]
        rw [hr] at hlen ⊢
        rw [parseArrItems_step, ihA v ind _ (by rfl) (Nat.lt_succ_iff.mp hlen)]
        have hsw : skipWs (',' :: '\n' :: (padC ind
            ++ (renderArrItems (w :: t') ind ++ '\n' :: (padC m ++ ']' :: rest))))
            = ',' :: '\n' :: (padC ind
                ++ (renderArrItems (w :: t') ind ++ '\n' :: (padC m ++ ']' :: rest))) :=
          skipWs_not_ws _ _ (by decide)
        have hsw2 : skipWs ('\n' :: (padC ind
            ++ (renderArrItems (w :: t') ind ++ '\n' :: (padC m ++ ']' :: rest))))
            = renderArrItems (w :: t') ind ++ '\n' :: (padC m ++ ']' :: rest) := by
          rw [skipWs_newline, skipWs_pad, skipWs_renderArrItems]
        have hp := renderJ_length_pos v ind
        have hB := ihB w t' ind m rest
          (by simp only [List.length_append, List.length_cons, len_padC] at hlen ⊢; omega)
        simp [hsw, hsw2, hB]
    · -- object member lists
      intro e t ind m rest hlen
      obtain ⟨k, val⟩ := e
      cases t with
      | nil =>
        have hr : renderObjItems [(k, val)] ind ++ '\n' :: (padC m ++ '}' :: rest)
            = '"' :: (escChars k.data ++ ('"' :: (':' :: ' '
                :: (renderJ val ind ++ '\n' :: (padC m ++ '}' :: rest))))) := by
          simp [renderObjItems, strChars, List.append_assoc]
        rw [hr] at hlen ⊢
        rw [parseObjItems_step, parseStrBody_escChars]
        have hsw1 : skipWs (':' :: ' ' :: (renderJ val ind ++ '\n' :: (padC m ++ '}' :: rest)))
            = ':' :: ' ' :: (renderJ val ind ++ '\n' :: (padC m ++ '}' :: rest)) :=
          skipWs_not_ws _ _ (by decide)
        have hsw2 : skipWs (' ' :: (renderJ val ind ++ '\n' :: (padC m ++ '}' :: rest)))
            = renderJ val ind ++ '\n' :: (padC m ++ '}' :: rest) := by
          rw [skipWs_space, skipWs_renderJ]
        have hA : parseJ f (renderJ val ind ++ '\n' :: (padC m ++ '}' :: rest))
            = some (val, '\n' :: (padC m ++ '}' :: rest)) := by
          apply ihA val ind _ (by rfl)
          simp only [List.length_append, List.length_cons] at hlen ⊢
          omega
        have hsw3 : skipWs ('\n' :: (padC m ++ '}' :: rest)) = '}' :: rest :=
          skipWs_close '}' (by decide) m rest
        simp [hsw1, hsw2, hA, hsw3]
      | cons e' t' =>
        have hr : renderObjItems ((k, val) :: e' :: t') ind ++ '\n' :: (padC m ++ '}' :: rest)
            = '"' :: (escChars k.data ++ ('"' :: (':' :: ' '
                :: (renderJ val ind ++ ',' :: '\n' :: (padC ind
                    ++ (renderObjItems (e' :: t') ind
                        ++ '\n' :: (padC m ++ '}' :: rest))))))) := by
          simp [renderObjItems, strChars, List.append_assoc]
        rw [hr] at hlen ⊢
        rw [parseObjItems_step, parseStrBody_escChars]
        have hsw1 : skipWs (':' :: ' ' :: (renderJ val ind ++ ',' :: '\n' :: (padC ind
            ++ (renderObjItems (e' :: t') ind ++ '\n' :: (padC m ++ '}' :: rest)))))
            = ':' :: ' ' :: (renderJ val ind ++ ',' :: '\n' :: (padC ind
                ++ (renderObjItems (e' :: t') ind ++ '\n' :: (padC m ++ '}' :: rest)))) :=
          skipWs_not_ws _ _ (by decide)
        have hsw2 : skipWs (' ' :: (renderJ val ind ++ ',' :: '\n' :: (padC ind
            ++ (renderObjItems (e' :: t') ind ++ '\n' :: (padC m ++ '}' :: rest)))))
            = renderJ val ind ++ ',' :: '\n' :: (padC ind
                ++ (renderObjItems (e' :: t') ind ++ '\n' :: (padC m ++ '}' :: rest))) := by
          rw [skipWs_space, skipWs_renderJ]
        have hA : parseJ f (renderJ val ind ++ ',' :: '\n' :: (padC ind
            ++ (renderObjItems (e' :: t') ind ++ '\n' :: (padC m ++ '}' :: rest))))
            = some (val, ',' :: '\n' :: (padC ind
                ++ (renderObjItems (e' :: t') ind ++ '\n' :: (padC m ++ '}' :: rest)))) := by
          apply ihA val ind _ (by rfl)
          simp only [List.length_append, List.length_cons] at hlen ⊢
          omega
        have hsw3 : skipWs (',' :: '\n' :: (padC ind
            ++ (renderObjItems (e' :: t') ind ++ '\n' :: (padC m ++ '}' :: rest))))
            = ',' :: '\n' :: (padC ind
                ++ (renderObjItems (e' :: t') ind ++ '\n' :: (padC m ++ '}' :: rest))) :=
          skipWs_not_ws _ _ (by decide)
        have hsw4 : skipWs ('\n' :: (padC ind
            ++ (renderObjItems (e' :: t') ind ++ '\n' :: (padC m ++ '}' :: rest))))
            = renderObjItems (e' :: t') ind ++ '\n' :: (padC m ++ '}' :: rest) := by
          rw [skipWs_newline, skipWs_pad, skipWs_renderObjItems]
        have hC := ihC e' t' ind m rest
          (by simp only [List.length_append, List.length_cons, len_padC] at hlen ⊢; omega)
        simp [hsw1, hsw2, hA, hsw3, hsw4, hC]

/-- The render/parse round trip: parsing the pretty-printed serialization of
any JSON value yields that value back. -/
theorem jsonParse_stringify2 (v : Json) : jsonParse (stringify2 v) = some v := by
  have hA := (parse_render_all ((renderJ v 0).length + 1)).1 v 0 [] rfl (by simp)
  rw [List.append_nil] at hA
  have hsw : skipWs (renderJ v 0) = renderJ v 0 := by
    simpa using skipWs_renderJ v 0 []
  rw [jsonParse.eq_def, stringify2]
  rw [show (String.mk (renderJ v 0)).data = renderJ v 0 from rfl, hsw, hA]
  rfl

/-! ### The topology data model

The in-memory shape of a parsed TopoJSON document, as far as the script's
field accesses reach: a transform (absent for unquantized topologies), the
shared arc table, and the named object mapping. Geometry objects carry the
optional id, bbox and properties fields that topojson-client's feature
wrapper reads. Coordinates are integers (JavaScript float arithmetic is exact
on them). -/

/-- A position: x, y and any extra components (copied through untransformed,
as in topojson-client's transform.js). -/
abbrev TPos := Int × Int × List Int

/-- The transform member of a quantized topology: scale and translate pairs. -/
structure TTransform where
  scaleX : Int
  scaleY : Int
  translateX : Int
  translateY : Int

mutual

/-- The geometry payload of a topology geometry object: the coordinates or arc
indices the decoder reads, by type tag. An unrecognized type decodes to a null
geometry (topojson-client's default switch case). -/
inductive TJGeom where
  | point (coords : TPos)
  | multiPoint (coords : List TPos)
  | lineString (arcIdx : List Int)
  | multiLineString (arcIdx : List (List Int))
  | polygon (rings : List (List Int))
  | multiPolygon (polys : List (List (List Int)))
  | collection (geometries : List TJObject)
  | unrecognized

/-- A topology geometry object: optional id, bbox and properties (absent
means the JavaScript field is undefined; a present null is distinct), plus
the geometry payload. -/
inductive TJObject where
  | mk (oid : Option Json) (bbox : Option Json) (properties : Option Json) (geom : TJGeom)

end

/-- The id field of a geometry object. -/
def TJObject.oid : TJObject → Option Json
  | .mk i _ _ _ => i

/-- The bbox field of a geometry object. -/
def TJObject.bbox : TJObject → Option Json
  | .mk _ b _ _ => b

/-- The properties field of a geometry object. -/
def TJObject.properties : TJObject → Option Json
  | .mk _ _ p _ => p

/-- The geometry payload of a geometry object. -/
def TJObject.geom : TJObject → TJGeom
  | .mk _ _ _ g => g

/-- A topology document: transform, shared arcs, and the named object mapping
in insertion order. -/
structure Topology where
  transform : Option TTransform
  arcs : List (List TPos)
  objects : List (String × TJObject)

/-! ### The decode: topojson-client's transform.js and feature.js -/

/-- One step of the stateful point transform closure of transform.js: absolute
position from accumulated deltas, scaled and translated; extra components are
copied unchanged. Returns the transformed point and the new accumulator. -/
def transformPoint (t : TTransform) (st : Int × Int) (p : TPos) : TPos × (Int × Int) :=
  let x0 := st.1 + p.1
  let y0 := st.2 + p.2.1
  ((x0 * t.scaleX + t.translateX, y0 * t.scaleY + t.translateY, p.2.2), (x0, y0))

/-- Delta-decode the points of one arc under a transform, the accumulator
starting at zero (the closure resets when the point index is zero). -/
def decodeArcAux (t : TTransform) (st : Int × Int) : List TPos → List TPos
  | [] => []
  | p :: rest =>
    let q := transformPoint t st p
    q.1 :: decodeArcAux t q.2 rest

/-- An arc's absolute points: delta-decoded under a transform, or returned
as-is when the topology has none (transform.js falls back to the identity). -/
def decodeArc (tr : Option TTransform) (a : List TPos) : List TPos :=
  match tr with
  | none => a
  | some t => decodeArcAux t (0, 0) a

/-- A single position decoded outside any arc (feature.js's point function
calls the transform closure with an undefined index, resetting it). -/
def decodePoint (tr : Option TTransform) (p : TPos) : TPos :=
  match tr with
  | none => p
  | some t => (transformPoint t (0, 0) p).1

/-- The arc function of feature.js: drop the junction point already emitted,
then append the arc's decoded points, reversed when the index is negative
(with the one's-complement of the index naming the arc). -/
def arcSeg (tr : Option TTransform) (arcs : List (List TPos)) (points : List TPos)
    (i : Int) : List TPos :=
  let a := arcs.getD (if i < 0 then (-i - 1).toNat else i.toNat) []
  let dec := decodeArc tr a
  points.dropLast ++ (if i < 0 then dec.reverse else dec)

/-- The line function of feature.js: concatenate the arcs' decoded points; a
degenerate result is padded with its first point (for the empty line the
source would push an undefined value; the data model keeps a zero position). -/
def lineCoords (tr : Option TTransform) (arcs : List (List TPos)) (ix : List Int) :
    List TPos :=
  let pts := ix.foldl (arcSeg tr arcs) []
  if pts.length < 2 then pts ++ [pts.headD (0, 0, [])] else pts

/-- The ring function of feature.js: a line, closed up to length four by
repeating its first point. -/
def ringCoords (tr : Option TTransform) (arcs : List (List TPos)) (ix : List Int) :
    List TPos :=
  let pts := lineCoords tr arcs ix
  pts ++ List.replicate (4 - pts.length) (pts.headD (0, 0, []))

/-- A position as a JSON array. -/
def posJson (p : TPos) : Json :=
  .arr (.num p.1 :: .num p.2.1 :: p.2.2.map .num)

mutual

/-- The geometry function of feature.js's object: the decoded GeoJSON geometry
value of one topology geometry object. -/
def geomJson (tr : Option TTransform) (arcs : List (List TPos)) : TJGeom → Json
  | .point p =>
      .obj [("type", .str "Point"), ("coordinates", posJson (decodePoint tr p))]
  | .multiPoint ps =>
      .obj [("type", .str "MultiPoint"),
            ("coordinates", .arr (ps.map (fun p => posJson (decodePoint tr p))))]
  | .lineString ix =>
      .obj [("type", .str "LineString"),
            ("coordinates", .arr ((lineCoords tr arcs ix).map posJson))]
  | .multiLineString ixs =>
      .obj [("type", .str "MultiLineString"),
            ("coordinates", .arr (ixs.map (fun ix => .arr ((lineCoords tr arcs ix).map posJson))))]
  | .polygon rings =>
      .obj [("type", .str "Polygon"),
            ("coordinates", .arr (rings.map (fun ix => .arr ((ringCoords tr arcs ix).map posJson))))]
  | .multiPolygon polys =>
      .obj [("type", .str "MultiPolygon"),
            ("coordinates", .arr (polys.map (fun rings =>
              .arr (rings.map (fun ix => .arr ((ringCoords tr arcs ix).map posJson))))))]
  | .collection gs =>
      .obj [("type", .str "GeometryCollection"), ("geometries", .arr (geomListJson tr arcs gs))]
  | .unrecognized => .null

/-- The geometries of a nested collection, decoded in order (each member's
geometry goes back through the geometry function; ids and properties of
nested members are not read there). -/
def geomListJson (tr : Option TTransform) (arcs : List (List TPos)) :
    List TJObject → List Json
  | [] => []
  | .mk _ _ _ g :: t => geomJson tr arcs g :: geomListJson tr arcs t

end

/-- An optional member: present JavaScript values keep their key, undefined
ones are omitted by JSON.stringify. -/
def optMember (name : String) : Option Json → List (String × Json)
  | none => []
  | some j => [(name, j)]

/-- Nullish test: JavaScript == null matches both null and undefined. -/
def isNullish : Option Json → Bool
  | none => true
  | some .null => true
  | some _ => false

/-- The inner feature function of feature.js: wrap one geometry object as a
GeoJSON Feature, with id and bbox members only when non-nullish (and the
stringify-visible member list mirroring the constructed JavaScript object). -/
def featureOne (topo : Topology) (o : TJObject) : Json :=
  let geometry := geomJson topo.transform topo.arcs o.geom
  let properties := match o.properties with
    | some p => if isNullish (some p) then Json.obj [] else p
    | none => Json.obj []
  if isNullish o.oid && isNullish o.bbox then
    .obj [("type", .str "Feature"), ("properties", properties), ("geometry", geometry)]
  else if isNullish o.bbox then
    .obj ([("type", .str "Feature")] ++ optMember "id" o.oid
      ++ [("properties", properties), ("geometry", geometry)])
  else
    .obj ([("type", .str "Feature")] ++ optMember "id" o.oid ++ optMember "bbox" o.bbox
      ++ [("properties", properties), ("geometry", geometry)])

/-- topojson.feature: a GeometryCollection becomes a FeatureCollection of its
members' features; any other geometry object becomes a single Feature. -/
def topoFeature (topo : Topology) (o : TJObject) : Json :=
  match o.geom with
  | .collection gs =>
      .obj [("type", .str "FeatureCollection"),
            ("features", .arr (gs.map (featureOne topo)))]
  | _ => featureOne topo o

/-! ### The conversion run -/

/-- The fixed input path of the script. -/
def inputPath : String := "./data/swiss_stuffes.json"

/-- The output path for a key: raw concatenation of the fixed directory, the
key and the .geojson suffix, as in the template literal of convert.js. -/
def outputPath (key : String) : String := "./data/" ++ key ++ ".geojson"

/-- State of the conversion loop: the in-memory document, the writes performed
so far in order, and the first error, if any. -/
structure RunState where
  doc : Topology
  writes : List (String × String)
  err : Option String

/-- One iteration of the for loop of convert.js on one object entry: a no-op
when an earlier iteration failed (the loop has already terminated); otherwise
the key either fails (per the I/O failure oracle), stopping the run with that
error before any write for it, or the 2-space serialization of its feature
decoding is appended to the writes. -/
def stepKey (fail : String → Option String) (st : RunState) (e : String × TJObject) :
    RunState :=
  if st.err.isSome then st
  else
    match fail e.1 with
    | some msg => { st with err := some msg }
    | none =>
        { st with writes := st.writes
            ++ [(outputPath e.1, stringify2 (topoFeature st.doc e.2))] }

/-- The conversion loop over all entries of the object mapping in order. -/
def runConv (fail : String → Option String) (doc : Topology) : RunState :=
  doc.objects.foldl (stepKey fail) ⟨doc, [], none⟩

/-- The writes a failure-free run performs for a list of entries. -/
def goodWrites (doc : Topology) (l : List (String × TJObject)) : List (String × String) :=
  l.map (fun e => (outputPath e.1, stringify2 (topoFeature doc e.2)))

/-! ### Reading the topology out of parsed JSON

JSON.parse returns the raw document; the shapes below are the ones the
script's (and the feature decoder's) field accesses rely on. -/

mutual

/-- A size measure on JSON values, used as decoder fuel. -/
def sizeJ : Json → Nat
  | .arr l => 1 + sizeArrJ l
  | .obj l => 1 + sizeObjJ l
  | _ => 1

/-- Size of an array's elements. -/
def sizeArrJ : List Json → Nat
  | [] => 0
  | v :: t => 1 + sizeJ v + sizeArrJ t

/-- Size of an object's members. -/
def sizeObjJ : List (String × Json) → Nat
  | [] => 0
  | (_k, v) :: t => sizeJ v + sizeObjJ t + 1

end

/-- Member access on a JSON object value; with duplicate keys the last wins,
as in the object JSON.parse builds. -/
def jMember (j : Json) (k : String) : Option Json :=
  match j with
  | .obj l => (l.reverse.find? (fun e => e.1 == k)).map (fun e => e.2)
  | _ => none

/-- An integer number value. -/
def numOfJson : Json → Option Int
  | .num n => some n
  | _ => none

/-- A position: an array of at least two integers. -/
def posOfJson : Json → Option TPos
  | .arr (.num x :: .num y :: rest) =>
      match rest.mapM numOfJson with
      | some ex => some (x, y, ex)
      | none => none
  | _ => none

/-- An arc: an array of positions. -/
def arcOfJson : Json → Option (List TPos)
  | .arr l => l.mapM posOfJson
  | _ => none

/-- A pair of integers. -/
def pairOfJson : Json → Option (Int × Int)
  | .arr [.num a, .num b] => some (a, b)
  | _ => none

/-- The transform member: scale and translate pairs. -/
def transformOfJson (j : Json) : Option TTransform :=
  match jMember j "scale", jMember j "translate" with
  | some s, some t =>
    match pairOfJson s, pairOfJson t with
    | some (kx, ky), some (dx, dy) => some ⟨kx, ky, dx, dy⟩
    | _, _ => none
  | _, _ => none

/-- An array of integers. -/
def intsOfJson : Json → Option (List Int)
  | .arr l => l.mapM numOfJson
  | _ => none

/-- An array of arrays of integers. -/
def intssOfJson : Json → Option (List (List Int))
  | .arr l => l.mapM intsOfJson
  | _ => none

/-- An array of arrays of arrays of integers. -/
def intsssOfJson : Json → Option (List (List (List Int)))
  | .arr l => l.mapM intssOfJson
  | _ => none

/-- An array of positions. -/
def possOfJson : Json → Option (List TPos)
  | .arr l => l.mapM posOfJson
  | _ => none

/-- A topology geometry object from its JSON value: the type tag picks the
payload shape, an unrecognized tag is kept (it decodes to a null geometry),
and id, bbox and properties ride along. Fueled for totality. -/
def geomOfJson : Nat → Json → Option TJObject
  | 0, _ => none
  | fuel + 1, j =>
    match jMember j "type" with
    | some (.str tstr) =>
      let payload : Option TJGeom :=
        if tstr = "Point" then
          match (jMember j "coordinates").bind posOfJson with
          | some p => some (.point p)
          | none => none
        else if tstr = "MultiPoint" then
          match (jMember j "coordinates").bind possOfJson with
          | some ps => some (.multiPoint ps)
          | none => none
        else if tstr = "LineString" then
          match (jMember j "arcs").bind intsOfJson with
          | some ix => some (.lineString ix)
          | none => none
        else if tstr = "MultiLineString" then
          match (jMember j "arcs").bind intssOfJson with
          | some ixs => some (.multiLineString ixs)
          | none => none
        else if tstr = "Polygon" then
          match (jMember j "arcs").bind intssOfJson with
          | some rings => some (.polygon rings)
          | none => none
        else if tstr = "MultiPolygon" then
          match (jMember j "arcs").bind intsssOfJson with
          | some polys => some (.multiPolygon polys)
          | none => none
        else if tstr = "GeometryCollection" then
          match jMember j "geometries" with
          | some (.arr l) =>
            match l.mapM (geomOfJson fuel) with
            | some gs => some (.collection gs)
            | none => none
          | _ => none
        else some .unrecognized
      match payload with
      | some g =>
          some (.mk (jMember j "id") (jMember j "bbox") (jMember j "properties") g)
      | none => none
    | _ => none

/-- The object mapping: each member decoded as a geometry object, in order. -/
def objectsOfJson (fuel : Nat) : Json → Option (List (String × TJObject))
  | .obj l => l.mapM (fun e => (geomOfJson fuel e.2).map (fun o => (e.1, o)))
  | _ => none

/-- A topology document from parsed JSON: the objects mapping and arcs must be
present and well-shaped (the script's accesses would fail otherwise); the
transform is optional, null meaning absent (transform.js treats both as the
identity). -/
def topologyOfJson (j : Json) : Option Topology :=
  match jMember j "objects" with
  | none => none
  | some objsJ =>
    match jMember j "arcs" with
    | none => none
    | some arcsJ =>
      match arcsJ with
      | .arr al =>
        match al.mapM arcOfJson with
        | none => none
        | some arcs =>
          let trOpt : Option (Option TTransform) :=
            match jMember j "transform" with
            | none => some none
            | some .null => some none
            | some tj =>
              match transformOfJson tj with
              | some t => some (some t)
              | none => none
          match trOpt with
          | none => none
          | some tr =>
            match objectsOfJson (sizeJ j) objsJ with
            | none => none
            | some objs => some ⟨tr, arcs, objs⟩
      | _ => none

/-- Errors of the whole script, by stage. -/
inductive ProgError where
  | fileNotFound
  | parseError
  | badStructure
  | keyFailure (msg : String)

/-- The whole script as a function of the file system contents and the
per-key failure oracle: read the fixed input path, JSON.parse the contents,
take the document as a topology and run the conversion loop. Produces the
ordered writes and the first error, if any. -/
def program (files : String → Option String) (fail : String → Option String) :
    List (String × String) × Option ProgError :=
  match files inputPath with
  | none => ([], some .fileNotFound)
  | some s =>
    match jsonParse s with
    | none => ([], some .parseError)
    | some j =>
      match topologyOfJson j with
      | none => ([], some .badStructure)
      | some doc =>
        let st := runConv fail doc
        (st.writes, st.err.map .keyFailure)

/-! ### A file system model for the writes -/

/-- One write: fs.writeFile replaces whatever is at the path. -/
def applyWrite (fs : String → Option String) (w : String × String) :
    String → Option String :=
  fun p => if p = w.1 then some w.2 else fs p

/-- A run's writes applied in order. -/
def applyWrites (fs : String → Option String) (ws : List (String × String)) :
    String → Option String :=
  ws.foldl applyWrite fs

/-- The content of the last write to a path in a write list, if any. -/
def lastWrite : List (String × String) → String → Option String
  | [], _ => none
  | w :: t, p =>
    match lastWrite t p with
    | some c => some c
    | none => if p = w.1 then some w.2 else none

/-! ### Path confinement -/

/-- Split a character list at slashes, keeping empty segments. -/
def splitSlashAux : List Char → List (List Char)
  | [] => [[]]
  | c :: t =>
    let r := splitSlashAux t
    if c = '/' then [] :: r
    else
      match r with
      | [] => [[c]]
      | h :: t2 => (c :: h) :: t2

/-- The slash-separated segments of a path. -/
def segsOf (p : String) : List String := (splitSlashAux p.data).map String.mk

/-- Resolve a path's segments: drop empty and dot segments, let dot-dot pop
the previous segment. -/
def normSegs (segs : List String) : List String :=
  segs.foldl (fun acc seg =>
    if seg = "" || seg = "." then acc
    else if seg = ".." then acc.dropLast
    else acc ++ [seg]) []

/-- Whether a path stays inside the script's data directory: its resolved
segments start with the data directory and name something inside it. -/
def isConfined (p : String) : Bool :=
  match normSegs (segsOf p) with
  | "data" :: rest => !rest.isEmpty
  | _ => false

/-- Whether a string contains a path separator. -/
def containsSlash (s : String) : Bool := s.data.contains '/'

/-! ### Run lemmas -/

theorem stepKey_doc (fail : String → Option String) (st : RunState) (e : String × TJObject) :
    (stepKey fail st e).doc = st.doc := by
  unfold stepKey
  by_cases h : st.err.isSome
  · simp [h]
  · rcases hf : fail e.1 with _ | msg <;> simp [h, hf]

theorem foldl_stepKey_doc (fail : String → Option String) :
    ∀ (l : List (String × TJObject)) (st : RunState),
      (l.foldl (stepKey fail) st).doc = st.doc := by
  intro l
  induction l with
  | nil => intro st; rfl
  | cons e t ih =>
    intro st
    rw [List.foldl_cons, ih (stepKey fail st e), stepKey_doc]

theorem foldl_stepKey_err (fail : String → Option String) :
    ∀ (l : List (String × TJObject)) (st : RunState),
      st.err.isSome → l.foldl (stepKey fail) st = st := by
  intro l
  induction l with
  | nil => intro st _; rfl
  | cons e t ih =>
    intro st h
    rw [List.foldl_cons, show stepKey fail st e = st from by simp [stepKey, h]]
    exact ih st h

theorem foldl_stepKey_ok (fail : String → Option String) :
    ∀ (l : List (String × TJObject)) (st : RunState),
      st.err = none → (∀ e ∈ l, fail e.1 = none) →
      l.foldl (stepKey fail) st = ⟨st.doc, st.writes ++ goodWrites st.doc l, none⟩ := by
  intro l
  induction l with
  | nil =>
    intro st herr _
    cases st with
    | mk d w e =>
      cases herr
      simp [goodWrites]
  | cons e t ih =>
    intro st herr hall
    rw [List.foldl_cons]
    have hke : fail e.1 = none := hall e (List.mem_cons_self e t)
    have hstep : stepKey fail st e
        = ⟨st.doc, st.writes ++ [(outputPath e.1, stringify2 (topoFeature st.doc e.2))],
            st.err⟩ := by
      simp [stepKey, herr, hke]
    rw [hstep, ih _ (by simpa using herr) (fun x hx => hall x (List.mem_cons_of_mem e hx))]
    simp [goodWrites]

theorem runConv_ok (doc : Topology) (fail : String → Option String)
    (hall : ∀ e ∈ doc.objects, fail e.1 = none) :
    runConv fail doc = ⟨doc, goodWrites doc doc.objects, none⟩ := by
  unfold runConv
  rw [foldl_stepKey_ok fail doc.objects ⟨doc, [], none⟩ rfl hall]
  simp

theorem foldl_stepKey_err_none (fail : String → Option String) :
    ∀ (l : List (String × TJObject)) (st : RunState),
      (l.foldl (stepKey fail) st).err = none →
      st.err = none ∧ ∀ e ∈ l, fail e.1 = none := by
  intro l
  induction l with
  | nil =>
    intro st h
    exact ⟨h, by simp⟩
  | cons e t ih =>
    intro st h
    rw [List.foldl_cons] at h
    obtain ⟨hstep, hrest⟩ := ih (stepKey fail st e) h
    by_cases hs : st.err.isSome
    · rw [show stepKey fail st e = st from by simp [stepKey, hs]] at hstep
      exact absurd hstep (by simp [Option.isSome_iff_exists] at hs; obtain ⟨m, hm⟩ := hs; simp [hm])
    · have herr : st.err = none := Option.not_isSome_iff_eq_none.mp hs
      refine ⟨herr, ?_⟩
      intro x hx
      rcases List.mem_cons.mp hx with hx1 | hx2
      · subst hx1
        rcases hf : fail x.1 with _ | msg
        · rfl
        · rw [show stepKey fail st x = { st with err := some msg } from by
            simp [stepKey, hs, hf]] at hstep
          simp at hstep
      · exact hrest x hx2

theorem runConv_err_none (doc : Topology) (fail : String → Option String)
    (hok : (runConv fail doc).err = none) : ∀ e ∈ doc.objects, fail e.1 = none :=
  (foldl_stepKey_err_none fail doc.objects ⟨doc, [], none⟩ hok).2

theorem runConv_stopsAtFailure (doc : Topology) (fail : String → Option String)
    (pre : List (String × TJObject)) (k : String) (o : TJObject)
    (post : List (String × TJObject)) (msg : String)
    (hobj : doc.objects = pre ++ (k, o) :: post)
    (hpre : ∀ e ∈ pre, fail e.1 = none)
    (hk : fail k = some msg) :
    runConv fail doc = ⟨doc, goodWrites doc pre, some msg⟩ := by
  unfold runConv
  rw [hobj, List.foldl_append, foldl_stepKey_ok fail pre ⟨doc, [], none⟩ rfl hpre,
    List.foldl_cons]
  have hstep : stepKey fail ⟨doc, [] ++ goodWrites doc pre, none⟩ (k, o)
      = ⟨doc, [] ++ goodWrites doc pre, some msg⟩ := by
    simp [stepKey, hk]
  rw [hstep, foldl_stepKey_err fail post _ (by simp)]
  simp

/-! ### File-system lemmas -/

theorem applyWrites_lastWrite (ws : List (String × String)) :
    ∀ (fs : String → Option String) (p : String),
      applyWrites fs ws p
        = match lastWrite ws p with
          | some c => some c
          | none => fs p := by
  induction ws with
  | nil => intro fs p; rfl
  | cons w t ih =>
    intro fs p
    show applyWrites (applyWrite fs w) t p = _
    rw [ih]
    cases hl : lastWrite t p with
    | some c => simp [lastWrite, hl]
    | none =>
      simp only [lastWrite, hl, applyWrite]
      by_cases hp : p = w.1 <;> simp [hp]

theorem applyWrites_twice (fs : String → Option String) (ws : List (String × String)) :
    applyWrites (applyWrites fs ws) ws = applyWrites fs ws := by
  funext p
  rw [applyWrites_lastWrite ws (applyWrites fs ws) p, applyWrites_lastWrite ws fs p]
  cases hl : lastWrite ws p with
  | some c => rfl
  | none => rfl

theorem outputPath_inj : ∀ k1 k2 : String, outputPath k1 = outputPath k2 → k1 = k2 := by
  intro k1 k2 h
  have hd := congrArg String.data h
  simp only [outputPath, String.data_append] at hd
  have h2 := List.append_cancel_right hd
  have h3 := List.append_cancel_left h2
  cases k1
  cases k2
  exact congrArg String.mk h3

/-! ### Concrete documents -/

/-- The failure oracle of an I/O-error-free run. -/
def noFail : String → Option String := fun _ => none

/-- An empty file system. -/
def noFiles : String → Option String := fun _ => none

/-- A single polygon geometry over the shared arc 0, with no id, bbox or
properties. -/
def regionObj : TJObject := .mk none none none (.polygon [[0]])

/-- A point geometry object. -/
def pointObj : TJObject := .mk none none none (.point (5, 7, []))

/-- The minimal quantized topology of the specification's polygon test: one
object key region bound to one polygon geometry over a one-arc shared arc
table, with scale (2, 3) and translate (10, 100). The arc's deltas accumulate
to the quantized ring (1,2), (3,4), (2,1), (1,2). -/
def docMinimal : Topology :=
  ⟨some ⟨2, 3, 10, 100⟩,
   [[(1, 2, []), (2, 2, []), (-1, -3, []), (-1, 1, [])]],
   [("region", regionObj)]⟩

/-- The expected decoding for docMinimal's region: a single Feature whose
polygon ring holds the absolute positions obtained by delta-decoding the arc
and applying the transform. -/
def expectedRegionFeature : Json :=
  .obj [("type", .str "Feature"), ("properties", .obj []),
        ("geometry", .obj [("type", .str "Polygon"),
          ("coordinates", .arr [.arr [
            .arr [.num 12, .num 106], .arr [.num 16, .num 112],
            .arr [.num 14, .num 103], .arr [.num 12, .num 106]]])])]

/-- A two-key topology for the failure-propagation test. -/
def docTwo : Topology := ⟨none, [], [("a", pointObj), ("b", pointObj)]⟩

/-- An oracle failing exactly the key b. -/
def failB : String → Option String := fun k => if k = "b" then some "disk full" else none

/-- A topology with an empty object mapping. -/
def docEmpty : Topology := ⟨none, [], []⟩

/-- A topology whose single object key contains path-separator segments. -/
def docEscape : Topology := ⟨none, [], [("../region", pointObj)]⟩

/-- A file system holding a document at the script's input path. -/
def wfilesA : String → Option String := fun p => if p = inputPath then some "topo" else none

/-- A file system agreeing with wfilesA at the input path but differing
everywhere else. -/
def wfilesB : String → Option String :=
  fun p => if p = inputPath then some "topo" else some "other"

/-! ### The claims -/

/-- C1: for every topology document whose object mapping has N keys, a
successful run (one in which no key failed) writes exactly N output files, one
per key of the mapping in order, and no others: the written paths are exactly
the keys' output paths, and distinct keys give distinct files. -/
theorem C1_one_file_per_key (doc : Topology) (fail : String → Option String)
    (hok : (runConv fail doc).err = none) :
    (runConv fail doc).writes.map Prod.fst = doc.objects.map (fun e => outputPath e.1)
      ∧ (runConv fail doc).writes.length = doc.objects.length
      ∧ ((doc.objects.map Prod.fst).Nodup →
          ((runConv fail doc).writes.map Prod.fst).Nodup) := by
  have hall := runConv_err_none doc fail hok
  rw [runConv_ok doc fail hall]
  refine ⟨?_, ?_, ?_⟩
  · simp [goodWrites, List.map_map]
  · simp [goodWrites]
  · intro hnd
    have hmm : (goodWrites doc doc.objects).map Prod.fst
        = (doc.objects.map Prod.fst).map outputPath := by
      simp [goodWrites, List.map_map]
    rw [hmm]
    exact hnd.map (fun a b hab => outputPath_inj a b hab)

theorem C1_witness :
    (runConv noFail docMinimal).writes.map Prod.fst
        = docMinimal.objects.map (fun e => outputPath e.1)
      ∧ (runConv noFail docMinimal).writes.length = docMinimal.objects.length
      ∧ ((docMinimal.objects.map Prod.fst).Nodup →
          ((runConv noFail docMinimal).writes.map Prod.fst).Nodup) :=
  C1_one_file_per_key docMinimal noFail rfl

/-- C2, counterexample to the claim as stated: for the minimal topology whose
single key region is bound directly to one polygon geometry over a one-arc
shared arc table, the content written to region.geojson is a single Feature —
its type member is Feature, it has no features member — not a
feature-collection, because topojson.feature only wraps GeometryCollection
objects as FeatureCollection. -/
theorem C2_counterexample :
    (runConv noFail docMinimal).writes
        = [("./data/region.geojson", stringify2 (topoFeature docMinimal regionObj))]
      ∧ jMember (topoFeature docMinimal regionObj) "type" = some (.str "Feature")
      ∧ jMember (topoFeature docMinimal regionObj) "features" = none
      ∧ ("Feature" : String) ≠ "FeatureCollection" :=
  ⟨rfl, rfl, rfl, by decide⟩

/-- C2 as amended: the content written to region.geojson is the 2-space
serialization of a single feature (not a feature-collection) whose geometry
coordinates, after delta-decoding against the arc table and applying the
transform, equal the expected absolute polygon ring
(12,106), (16,112), (14,103), (12,106). -/
theorem C2_amended :
    (runConv noFail docMinimal).writes
        = [(outputPath "region", stringify2 expectedRegionFeature)]
      ∧ topoFeature docMinimal regionObj = expectedRegionFeature :=
  ⟨rfl, rfl⟩

/-- C3: in a run without failures, every key's output is written to the path
formed by concatenating the fixed directory, the key and the .geojson suffix,
with content the 2-space-indented serialization of the decoded result; and a
write replaces whatever a path held before, unconditionally. -/
theorem C3_paths_contents_overwrite (doc : Topology) (fail : String → Option String)
    (hok : (runConv fail doc).err = none) :
    (runConv fail doc).writes
        = doc.objects.map (fun e => ("./data/" ++ e.1 ++ ".geojson",
            stringify2 (topoFeature doc e.2)))
      ∧ (∀ (fs : String → Option String) (p c : String), applyWrite fs (p, c) p = some c) := by
  constructor
  · have hall := runConv_err_none doc fail hok
    rw [runConv_ok doc fail hall]
    rfl
  · intro fs p c
    simp [applyWrite]

theorem C3_witness :
    (runConv noFail docMinimal).writes
        = docMinimal.objects.map (fun e => ("./data/" ++ e.1 ++ ".geojson",
            stringify2 (topoFeature docMinimal e.2)))
      ∧ (∀ (fs : String → Option String) (p c : String), applyWrite fs (p, c) p = some c) :=
  C3_paths_contents_overwrite docMinimal noFail rfl

/-- C4: when some key's decode or write fails after a prefix of keys
succeeded, the run stops with that error: the writes are exactly the
successful prefix's writes — later keys are never processed, and the files
already written stay in the write list unchanged (the run has no rollback
operation at all). -/
theorem C4_failure_stops_run (doc : Topology) (fail : String → Option String)
    (pre : List (String × TJObject)) (k : String) (o : TJObject)
    (post : List (String × TJObject)) (msg : String)
    (hobj : doc.objects = pre ++ (k, o) :: post)
    (hpre : ∀ e ∈ pre, fail e.1 = none)
    (hk : fail k = some msg) :
    (runConv fail doc).writes = goodWrites doc pre
      ∧ (runConv fail doc).err = some msg := by
  rw [runConv_stopsAtFailure doc fail pre k o post msg hobj hpre hk]
  exact ⟨rfl, rfl⟩

theorem C4_witness :
    (runConv failB docTwo).writes = goodWrites docTwo [("a", pointObj)]
      ∧ (runConv failB docTwo).err = some "disk full" :=
  C4_failure_stops_run docTwo failB [("a", pointObj)] "b" pointObj [] "disk full" rfl
    (by intro e he; simp only [List.mem_singleton] at he; subst he; rfl) rfl

/-- C5: when the input file does not exist, the program stops with a
file-not-found failure and performs no write at all. -/
theorem C5_missing_input (files : String → Option String) (fail : String → Option String)
    (hmiss : files inputPath = none) :
    program files fail = ([], some .fileNotFound) := by
  unfold program
  rw [hmiss]

theorem C5_witness : program noFiles noFail = ([], some .fileNotFound) :=
  C5_missing_input noFiles noFail rfl

/-- C6: a document with an empty object mapping runs to completion with no
error and zero writes. -/
theorem C6_empty_mapping (doc : Topology) (fail : String → Option String)
    (hempty : doc.objects = []) :
    (runConv fail doc).writes = [] ∧ (runConv fail doc).err = none := by
  unfold runConv
  rw [hempty]
  exact ⟨rfl, rfl⟩

theorem C6_witness :
    (runConv noFail docEmpty).writes = [] ∧ (runConv noFail docEmpty).err = none :=
  C6_empty_mapping docEmpty noFail rfl

/-- C7: the program reads only the fixed input path, so two file systems with
byte-identical content there produce identical writes and outcome; and
re-applying a run's writes to the resulting file system changes nothing
(re-running on unchanged input is idempotent on the output files). -/
theorem C7_deterministic_idempotent (files1 files2 fail : String → Option String)
    (fs : String → Option String)
    (hsame : files1 inputPath = files2 inputPath) :
    program files1 fail = program files2 fail
      ∧ applyWrites (applyWrites fs (program files1 fail).1) (program files1 fail).1
          = applyWrites fs (program files1 fail).1 := by
  constructor
  · unfold program
    rw [hsame]
  · exact applyWrites_twice fs (program files1 fail).1

theorem C7_witness :
    program wfilesA noFail = program wfilesB noFail
      ∧ applyWrites (applyWrites noFiles (program wfilesA noFail).1)
            (program wfilesA noFail).1
          = applyWrites noFiles (program wfilesA noFail).1 :=
  C7_deterministic_idempotent wfilesA wfilesB noFail noFiles rfl

/-- C8: for every document and geometry object, the serialized output parses
back (it is syntactically valid JSON) to a value structurally equal to the
decoded feature itself: decode, serialize, parse recovers decode. -/
theorem C8_serialize_parse_roundtrip (doc : Topology) (o : TJObject) :
    jsonParse (stringify2 (topoFeature doc o)) = some (topoFeature doc o) :=
  jsonParse_stringify2 (topoFeature doc o)

/-- C9: the conversion run never mutates the in-memory topology document:
after processing every key, the document in the run's state is the one the
run started from. -/
theorem C9_document_unchanged (doc : Topology) (fail : String → Option String) :
    (runConv fail doc).doc = doc :=
  foldl_stepKey_doc fail doc.objects ⟨doc, [], none⟩

/-- C10: output paths are raw concatenation with no sanitization, so a key
containing path separators escapes the fixed output directory: for the
topology whose key is ../region, the one write goes to
./data/../region.geojson, which resolves outside the data directory, while a
plain key's output stays confined. -/
theorem C10_path_escape :
    containsSlash "../region" = true
      ∧ (runConv noFail docEscape).writes.map Prod.fst = ["./data/../region.geojson"]
      ∧ isConfined "./data/../region.geojson" = false
      ∧ isConfined (outputPath "region") = true :=
  ⟨by decide, rfl, by decide, by decide⟩
